import Mathlib

/-
Verification of the pdf-parser service (src/services/pdf-parser/app.py).

The core logic is embedded shallowly:
- a Python cell value (either None or a string) is `Cell := Option String`;
- a Row is a list of cells, a Table a list of rows;
- Python truthiness, str(), str.strip() and str.lower() are modelled by
  executable functions below;
- the camelot lattice call, which may raise, is an `Except String` value;
  the stream call is its table list;
- a pdfplumber document is the list, page by page, of the tables that
  page.extract_tables() returns on that page.
-/

namespace PdfApp

/-- A Python cell value: None or a string. -/
abbrev Cell := Option String

/-- A row is an ordered sequence of cell values. -/
abbrev Row := List Cell

/-- A table is an ordered sequence of rows. -/
abbrev Table := List Row

/-- Python str() on a cell value: str(None) is the string "None". -/
def pyStr : Cell → String
  | none => "None"
  | some s => s

/-- Python truthiness of a cell value: None and the empty string are falsy. -/
def cellTruthy : Cell → Bool
  | none => false
  | some s => !(s == "")

/-- Strip whitespace from both ends of a character list, as str.strip() does. -/
def stripChars (cs : List Char) : List Char :=
  ((cs.dropWhile Char.isWhitespace).reverse.dropWhile Char.isWhitespace).reverse

/-- Python str.strip(): remove leading and trailing whitespace. -/
def pyStrip (s : String) : String := ⟨stripChars s.data⟩

/-- Python str.lower(), character by character. -/
def pyLower (s : String) : String := ⟨s.data.map Char.toLower⟩

/-- The normalisation applied to a cell before header comparison:
str(cell).strip().lower() from app.py line 206. -/
def normCell (c : Cell) : String := pyLower (pyStrip (pyStr c))

/-- app.py lines 197-209, is_header_row(row, header_row): a candidate row is a
repeated header when one of the first min(3, len(row), len(header_row)) cell
positions matches the known header cell after strip().lower(); empty rows never
match. -/
def is_header_row (row header_row : Row) : Bool :=
  if row.isEmpty || header_row.isEmpty then false
  else
    (List.range (min 3 (min row.length header_row.length))).any
      (fun i => normCell (row.getD i none) == normCell (header_row.getD i none))

/-- The cell normalisation of app.py line 220:
str(cell).strip() if cell is not None else the empty string. -/
def clean_cell : Cell → String
  | none => ""
  | some s => pyStrip s

/-- app.py lines 212-227, clean_rows(rows): trim every cell (None becomes the
empty string) and keep only rows with at least one non-empty cleaned cell. -/
def clean_rows : List Row → List (List String)
  | [] => []
  | row :: rest =>
    if (row.map clean_cell).any (fun c => !(c == "")) then
      (row.map clean_cell) :: clean_rows rest
    else clean_rows rest

/-- The per-row survival test of the pdfplumber extractor, app.py line 116:
row and any(cell and str(cell).strip() for cell in row). -/
def plumberRowKeep (row : Row) : Bool :=
  !row.isEmpty && row.any (fun cell => cellTruthy cell && !(pyStrip (pyStr cell) == ""))

/-- The per-row survival test of the camelot extractor, app.py line 172:
any(cell and str(cell).strip() for cell in row). -/
def camelotRowKeep (row : Row) : Bool :=
  row.any (fun cell => cellTruthy cell && !(pyStrip (pyStr cell) == ""))

/-- One step of the table merger, app.py lines 123-131 and 179-187: the first
surviving table is taken whole; a later table loses its first row exactly when
that row matches the header signature all_rows[0] (always the first row of the
first surviving table). The sources only apply this to tables of at least 2
rows, so headI never sees an empty list there. -/
def merge_step (all_rows filtered_rows : List Row) : List Row :=
  if all_rows.isEmpty then all_rows ++ filtered_rows
  else if is_header_row filtered_rows.headI all_rows.headI then
    all_rows ++ filtered_rows.tail
  else all_rows ++ filtered_rows

/-- The table merger: fold merge_step over the surviving tables in order. -/
def merge_tables (tables : List Table) : List Row :=
  tables.foldl merge_step []

/-- The record returned by both extractors and by /parse. -/
structure ExtractionResult where
  rows : List (List String)
  pages_processed : Nat
  method_used : String
  total_rows : Nat
deriving DecidableEq

/-- The per-table body of the pdfplumber loop, app.py lines 112-131: filter the
table, drop it when fewer than 2 rows survive, otherwise merge. -/
def plumberTableStep (all_rows : List Row) (table : Table) : List Row :=
  if (table.filter plumberRowKeep).length < 2 then all_rows
  else merge_step all_rows (table.filter plumberRowKeep)

/-- The per-page body of the pdfplumber loop, app.py lines 102-131: skip pages
with no tables, count every other page, and run the table loop. The
accumulator is (all_rows, pages_processed). -/
def plumberPageStep (acc : List Row × Nat) (tables : List Table) : List Row × Nat :=
  if tables.isEmpty then acc
  else (tables.foldl plumberTableStep acc.1, acc.2 + 1)

/-- app.py lines 94-138, extract_with_pdfplumber: pages is the per-page output
of page.extract_tables(). -/
def extract_with_pdfplumber (pages : List (List Table)) : ExtractionResult :=
  let acc := pages.foldl plumberPageStep ([], 0)
  { rows := clean_rows acc.1
    pages_processed := acc.2
    method_used := "pdfplumber"
    total_rows := acc.1.length }

/-- app.py lines 146-150: the lattice call is tried first; if it raises, the
stream call supplies the tables. -/
def camelotTables (lattice : Except String (List Table)) (stream : List Table) :
    List Table :=
  match lattice with
  | Except.ok ts => ts
  | Except.error _ => stream

/-- The per-table body of the camelot loop, app.py lines 162-187: the rows of
the table (df.values.tolist()) are filtered, small tables are dropped, the
rest are merged. -/
def camelotTableStep (all_rows : List Row) (table : Table) : List Row :=
  if (table.filter camelotRowKeep).length < 2 then all_rows
  else merge_step all_rows (table.filter camelotRowKeep)

/-- app.py lines 152-194, the body of extract_with_camelot once the table list
is fixed: an empty table list gives the empty result; otherwise the table loop
runs and pages_processed is the number of tables camelot found. -/
def camelotBody (tables : List Table) : ExtractionResult :=
  if tables.isEmpty then
    { rows := [], pages_processed := 0, method_used := "camelot", total_rows := 0 }
  else
    let all_rows := tables.foldl camelotTableStep []
    { rows := clean_rows all_rows
      pages_processed := tables.length
      method_used := "camelot"
      total_rows := all_rows.length }

/-- app.py lines 141-194, extract_with_camelot. -/
def extract_with_camelot (lattice : Except String (List Table))
    (stream : List Table) : ExtractionResult :=
  camelotBody (camelotTables lattice stream)

/-- The three views an uploaded document presents to the two extractors. -/
structure PdfDoc where
  pages : List (List Table)
  lattice : Except String (List Table)
  stream : List Table

/-- app.py lines 74-82, the strategy selection inside parse_pdf: run pdfplumber,
and fall back to camelot when its result has fewer than 2 rows. The Python
guard also tests falsiness of the result dict, but extract_with_pdfplumber
always returns a non-empty dict holding the rows key, so the guard reduces to
the length test on the cleaned rows. -/
def parse_pdf (doc : PdfDoc) : ExtractionResult :=
  let result := extract_with_pdfplumber doc.pages
  if result.rows.length < 2 then extract_with_camelot doc.lattice doc.stream
  else result

/-! Helper lemmas about dropWhile, used for idempotence of stripping. -/

/-- The head of a dropWhile result fails the dropped test. -/
theorem head_dropWhile_false {α : Type} (p : α → Bool) (l : List α) (a : α)
    (ha : (l.dropWhile p).head? = some a) : p a = false := by
  induction l with
  | nil => simp [List.dropWhile] at ha
  | cons x t ih =>
    rw [List.dropWhile_cons] at ha
    by_cases hx : p x = true
    · rw [if_pos hx] at ha
      exact ih ha
    · rw [if_neg hx] at ha
      simp only [List.head?_cons, Option.some.injEq] at ha
      subst ha
      simpa using hx

/-- A list whose head fails the test is unchanged by dropWhile. -/
theorem dropWhile_eq_self_of_head {α : Type} (p : α → Bool) (l : List α)
    (h : ∀ a, l.head? = some a → p a = false) : l.dropWhile p = l := by
  cases l with
  | nil => rfl
  | cons x t =>
    rw [List.dropWhile_cons, if_neg]
    simp [h x rfl]

/-- Reversed, a dropWhile of a reversed list is a prefix of the original. -/
theorem dropWhile_reverse_prefix {α : Type} (p : α → Bool) (l : List α) :
    ∃ t, (l.reverse.dropWhile p).reverse ++ t = l := by
  obtain ⟨t, ht⟩ := List.dropWhile_suffix p (l := l.reverse)
  refine ⟨t.reverse, ?_⟩
  have := congrArg List.reverse ht
  rwa [List.reverse_append, List.reverse_reverse] at this

/-- A non-empty prefix has the same head as the full list. -/
theorem head_of_prefix {α : Type} (x t l : List α) (h : x ++ t = l) (hx : x ≠ []) :
    x.head? = l.head? := by
  cases x with
  | nil => exact absurd rfl hx
  | cons a xs => rw [← h]; rfl

/-- Stripping both ends of a character list is idempotent. -/
theorem stripChars_idem (cs : List Char) : stripChars (stripChars cs) = stripChars cs := by
  unfold stripChars
  have h1 : ((cs.dropWhile Char.isWhitespace).reverse.dropWhile
      Char.isWhitespace).reverse.dropWhile Char.isWhitespace =
      ((cs.dropWhile Char.isWhitespace).reverse.dropWhile Char.isWhitespace).reverse := by
    apply dropWhile_eq_self_of_head
    intro a ha
    by_cases hemp : ((cs.dropWhile Char.isWhitespace).reverse.dropWhile
        Char.isWhitespace).reverse = []
    · rw [hemp] at ha
      cases ha
    · obtain ⟨t, ht⟩ := dropWhile_reverse_prefix Char.isWhitespace
        (cs.dropWhile Char.isWhitespace)
      have hh := head_of_prefix _ _ _ ht hemp
      rw [hh] at ha
      exact head_dropWhile_false Char.isWhitespace cs a ha
  rw [h1, List.reverse_reverse]
  have h2 : ((cs.dropWhile Char.isWhitespace).reverse.dropWhile
      Char.isWhitespace).dropWhile Char.isWhitespace =
      (cs.dropWhile Char.isWhitespace).reverse.dropWhile Char.isWhitespace := by
    apply dropWhile_eq_self_of_head
    intro a ha
    exact head_dropWhile_false Char.isWhitespace
      (cs.dropWhile Char.isWhitespace).reverse a ha
  rw [h2]

/-- Python strip is idempotent. -/
theorem pyStrip_idem (s : String) : pyStrip (pyStrip s) = pyStrip s := by
  show (⟨stripChars (stripChars s.data)⟩ : String) = ⟨stripChars s.data⟩
  exact congrArg String.mk (stripChars_idem s.data)

/-- Re-cleaning an already cleaned cell changes nothing. -/
theorem clean_cell_some_clean (c : Cell) : clean_cell (some (clean_cell c)) = clean_cell c := by
  cases c with
  | none =>
    show pyStrip "" = ""
    decide
  | some s => exact pyStrip_idem s

/-- Characterisation of is_header_row as an existential over leading positions. -/
theorem is_header_row_iff (r h : Row) :
    is_header_row r h = true ↔
      ∃ i, i < min 3 (min r.length h.length) ∧
        normCell (r.getD i none) = normCell (h.getD i none) := by
  unfold is_header_row
  rcases r with _ | ⟨a, r⟩
  · simp
  rcases h with _ | ⟨b, h⟩
  · simp
  simp [List.any_eq_true, List.mem_range]

/-- clean_rows is the map of clean_cell followed by the non-empty-row filter. -/
theorem clean_rows_eq (rs : List Row) :
    clean_rows rs =
      (rs.map (fun row => row.map clean_cell)).filter
        (fun r => r.any (fun c => !(c == ""))) := by
  induction rs with
  | nil => rfl
  | cons row rest ih =>
    rw [List.map_cons, List.filter_cons]
    show (if (row.map clean_cell).any (fun c => !(c == "")) then
        (row.map clean_cell) :: clean_rows rest else clean_rows rest) = _
    by_cases hc : (row.map clean_cell).any (fun c => !(c == "")) = true
    · rw [if_pos hc, if_pos hc, ih]
    · rw [if_neg hc, if_neg hc, ih]

/-- Every row surviving clean_rows has a non-empty cell and is the cleaning of
an input row. -/
theorem mem_clean_rows (rs : List Row) (row : List String) (h : row ∈ clean_rows rs) :
    row.any (fun c => !(c == "")) = true ∧ ∃ r ∈ rs, row = r.map clean_cell := by
  rw [clean_rows_eq] at h
  obtain ⟨hmem, hpred⟩ := List.mem_filter.mp h
  obtain ⟨r, hr, hrow⟩ := List.mem_map.mp hmem
  exact ⟨hpred, r, hr, hrow.symm⟩

/-- C4: the Header Deduplicator returns true exactly when some position
i < min(3, len(candidate), len(signature)) matches after str()/strip()/lower()
normalisation, and an empty candidate or signature always yields false. -/
theorem is_header_row_spec (r h : Row) :
    (is_header_row r h = true ↔
      ∃ i, i < min 3 (min r.length h.length) ∧
        normCell (r.getD i none) = normCell (h.getD i none)) ∧
    ((r = [] ∨ h = []) → is_header_row r h = false) := by
  refine ⟨is_header_row_iff r h, ?_⟩
  rintro (rfl | rfl)
  · simp [is_header_row]
  · simp [is_header_row]

/-- Witness for C4 at the empty candidate. -/
theorem is_header_row_spec_witness : is_header_row [] [some "a"] = false :=
  (is_header_row_spec [] [some "a"]).2 (Or.inl rfl)

/-- C5: the Row Cleaner maps every cell to its trimmed string (None to the
empty string), drops exactly the rows whose cleaned cells are all empty,
preserves the order of the survivors, and every surviving cell is a fixed
point of trimming. -/
theorem clean_rows_spec (rs : List Row) :
    (clean_rows rs =
      (rs.map (fun row => row.map clean_cell)).filter
        (fun r => r.any (fun c => !(c == "")))) ∧
    ∀ row ∈ clean_rows rs, ∀ s ∈ row, pyStrip s = s := by
  refine ⟨clean_rows_eq rs, ?_⟩
  intro row hrow s hs
  obtain ⟨-, r, hr, hrow2⟩ := mem_clean_rows rs row hrow
  subst hrow2
  obtain ⟨c, hc, hs2⟩ := List.mem_map.mp hs
  subst hs2
  cases c with
  | none =>
    show pyStrip "" = ""
    decide
  | some u => exact pyStrip_idem u

/-- Witness for C5 on a one-row input. -/
theorem clean_rows_spec_witness : pyStrip "a" = "a" :=
  (clean_rows_spec [[some " a "]]).2 ["a"] (by decide) "a" (by decide)

/-- C7: when the lattice call raises, extract_with_camelot computes its result
from the stream tables. -/
theorem camelot_lattice_error_falls_to_stream (e : String) (stream : List Table) :
    extract_with_camelot (Except.error e) stream = camelotBody stream := rfl

/-- C8: the Row Cleaner is idempotent; re-cleaning its output (whose string
cells re-enter as string values) returns the output unchanged. -/
theorem clean_rows_idempotent (rs : List Row) :
    clean_rows ((clean_rows rs).map (fun row => row.map some)) = clean_rows rs := by
  conv_lhs => rw [clean_rows_eq]
  rw [List.map_map]
  have hcong : ∀ row ∈ clean_rows rs,
      ((fun row => row.map clean_cell) ∘ fun row => row.map some) row = id row := by
    intro row hrow
    simp only [Function.comp_apply, id_eq, List.map_map]
    have hcells : ∀ s ∈ row, (clean_cell ∘ some) s = id s := by
      intro s hs
      obtain ⟨-, r, hr, hrow2⟩ := mem_clean_rows rs row hrow
      subst hrow2
      obtain ⟨c, hc, hs2⟩ := List.mem_map.mp hs
      subst hs2
      exact clean_cell_some_clean c
    rw [List.map_congr_left hcells, List.map_id]
  rw [List.map_congr_left hcong, List.map_id]
  exact List.filter_eq_self.mpr (fun row hrow => (mem_clean_rows rs row hrow).1)

/-- C9: a non-empty row always matches itself as a header. -/
theorem is_header_row_self (H : Row) (h : H ≠ []) : is_header_row H H = true := by
  rcases H with _ | ⟨a, t⟩
  · exact absurd rfl h
  · refine (is_header_row_iff _ _).mpr ⟨0, ?_, rfl⟩
    simp [Nat.lt_min]

/-- Witness for C9 on a concrete header row. -/
theorem is_header_row_self_witness :
    ([some "Date", some "Desc"] : Row) ≠ [] ∧
      is_header_row [some "Date", some "Desc"] [some "Date", some "Desc"] = true :=
  ⟨by decide, is_header_row_self [some "Date", some "Desc"] (by decide)⟩

/-- C1: the fallback result is returned exactly when the pdfplumber result has
fewer than 2 rows, whatever the fallback yields; with 2 or more rows the
pdfplumber result is returned untouched. -/
theorem strategy_selector_fallback_iff (doc : PdfDoc) :
    ((extract_with_pdfplumber doc.pages).rows.length < 2 →
      parse_pdf doc = extract_with_camelot doc.lattice doc.stream) ∧
    (2 ≤ (extract_with_pdfplumber doc.pages).rows.length →
      parse_pdf doc = extract_with_pdfplumber doc.pages) := by
  constructor
  · intro h
    simp only [parse_pdf]
    rw [if_pos h]
  · intro h
    simp only [parse_pdf]
    rw [if_neg (by omega)]

/-- Witness for C1: an empty document falls back, a one-table two-row document
is answered by pdfplumber alone. -/
theorem strategy_selector_fallback_iff_witness :
    ((extract_with_pdfplumber ([] : List (List Table))).rows.length < 2 ∧
      parse_pdf (PdfDoc.mk [] (Except.ok []) []) =
        extract_with_camelot (Except.ok []) []) ∧
    (2 ≤ (extract_with_pdfplumber
        [[[[some "Date", some "D"], [some "1", some "x"]]]]).rows.length ∧
      parse_pdf (PdfDoc.mk [[[[some "Date", some "D"], [some "1", some "x"]]]]
          (Except.ok []) []) =
        extract_with_pdfplumber [[[[some "Date", some "D"], [some "1", some "x"]]]]) :=
  ⟨⟨by decide,
    (strategy_selector_fallback_iff (PdfDoc.mk [] (Except.ok []) [])).1 (by decide)⟩,
   ⟨by decide,
    (strategy_selector_fallback_iff
      (PdfDoc.mk [[[[some "Date", some "D"], [some "1", some "x"]]]]
        (Except.ok []) [])).2 (by decide)⟩⟩

/-- C2 counterexample: a page whose only table has a single surviving row
yields no surviving table, yet pages_processed is 1, not 0 as the claim
requires; the increment in app.py line 109 happens before the size filter of
line 120. -/
theorem pages_processed_counts_discarded_page :
    (extract_with_pdfplumber [[[[some "a"]]]]).pages_processed = 1 ∧
    (extract_with_pdfplumber [[[[some "a"]]]]).rows = [] ∧
    (extract_with_pdfplumber [[[[some "a"]]]]).total_rows = 0 := by
  refine ⟨by decide, by decide, by decide⟩

/-- Counting helper: the second component of the pdfplumber page fold counts
the pages whose extracted table list is non-empty. -/
theorem plumber_fold_pages_count (pages : List (List Table)) (acc : List Row × Nat) :
    (pages.foldl plumberPageStep acc).2 = acc.2 + pages.countP (fun ts => !ts.isEmpty) := by
  induction pages generalizing acc with
  | nil => simp
  | cons ts rest ih =>
    rw [List.foldl_cons, ih, List.countP_cons]
    unfold plumberPageStep
    by_cases h : ts.isEmpty = true
    · rw [if_pos h]
      simp [h]
    · rw [if_neg h]
      simp only [Bool.not_eq_true] at h
      simp [h]
      omega

/-- C2 amended: pages_processed counts exactly the pages on which
page.extract_tables() returned a non-empty table list, whether or not any of
those tables survives the 2-row size filter. -/
theorem pages_processed_counts_nonempty_pages (pages : List (List Table)) :
    (extract_with_pdfplumber pages).pages_processed =
      pages.countP (fun ts => !ts.isEmpty) := by
  show (pages.foldl plumberPageStep ([], 0)).2 = _
  rw [plumber_fold_pages_count]
  exact Nat.zero_add _

/-- C6: with zero camelot tables the result is exactly the empty camelot
record, and with tables present pages_processed is the number of tables found. -/
theorem camelot_zero_tables_and_pages (lattice : Except String (List Table))
    (stream : List Table) :
    (camelotTables lattice stream = [] →
      extract_with_camelot lattice stream = ExtractionResult.mk [] 0 "camelot" 0) ∧
    (camelotTables lattice stream ≠ [] →
      (extract_with_camelot lattice stream).pages_processed =
        (camelotTables lattice stream).length) := by
  constructor
  · intro h
    unfold extract_with_camelot camelotBody
    rw [h]
    rfl
  · intro h
    unfold extract_with_camelot camelotBody
    rw [if_neg (by simp [List.isEmpty_iff, h])]

/-- Witness for C6: an empty table list and a one-table list. -/
theorem camelot_zero_tables_and_pages_witness :
    (extract_with_camelot (Except.ok []) [] = ExtractionResult.mk [] 0 "camelot" 0) ∧
    (extract_with_camelot
        (Except.ok [[[some "h", some "k"], [some "1", some "2"]]]) []).pages_processed = 1 :=
  ⟨(camelot_zero_tables_and_pages (Except.ok []) []).1 rfl,
   (camelot_zero_tables_and_pages
      (Except.ok [[[some "h", some "k"], [some "1", some "2"]]]) []).2 (by decide)⟩

/-- headI of an append with a non-empty left part. -/
theorem headI_append_left {α : Type} [Inhabited α] (l t : List α) (h : l ≠ []) :
    (l ++ t).headI = l.headI := by
  cases l with
  | nil => exact absurd rfl h
  | cons a xs => rfl

/-- merge_step on a non-empty accumulator appends the incoming table, minus
its first row when that row matches the header signature. -/
theorem merge_step_ne (acc t : List Row) (h : acc ≠ []) :
    merge_step acc t =
      acc ++ (if is_header_row t.headI acc.headI then t.tail else t) := by
  unfold merge_step
  rw [if_neg (by simp [List.isEmpty_iff, h])]
  by_cases hh : is_header_row t.headI acc.headI = true
  · rw [if_pos hh, if_pos hh]
  · rw [if_neg hh, if_neg hh]

/-- Folding merge_step from a non-empty accumulator appends, per incoming
table, the table or its tail according to the header test against the
accumulator head, which never changes. -/
theorem merge_fold_structure (rest : List Table) (acc : List Row) (h : acc ≠ []) :
    rest.foldl merge_step acc =
      acc ++ (rest.map
        (fun t => if is_header_row t.headI acc.headI then t.tail else t)).flatten := by
  induction rest generalizing acc with
  | nil => simp
  | cons t rs ih =>
    rw [List.foldl_cons, merge_step_ne _ _ h, List.map_cons, List.flatten_cons,
      ← List.append_assoc]
    have hne : acc ++ (if is_header_row t.headI acc.headI then t.tail else t) ≠ [] := by
      intro hcontra
      exact h (List.append_eq_nil.mp hcontra).1
    rw [ih _ hne, headI_append_left _ _ h]

/-- C3: merging surviving tables keeps table order and in-table row order,
drops exactly the first row of each later table whose first row matches the
header signature (the first row of the first table), and so satisfies the row
count identity of the spec. -/
theorem merge_tables_structure (t1 : Table) (rest : List Table)
    (hlen : ∀ t ∈ t1 :: rest, 2 ≤ t.length)
    (hfil : ∀ t ∈ t1 :: rest, ∀ r ∈ t, camelotRowKeep r = true) :
    merge_tables (t1 :: rest) =
      t1 ++ (rest.map
        (fun t => if is_header_row t.headI t1.headI then t.tail else t)).flatten ∧
    (merge_tables (t1 :: rest)).length =
      t1.length + (rest.map
        (fun t => t.length - if is_header_row t.headI t1.headI then 1 else 0)).sum := by
  have ht1 : t1 ≠ [] := by
    have h2 := hlen t1 (by simp)
    intro hc
    subst hc
    simp at h2
  have hstep1 : merge_step [] t1 = t1 := rfl
  have hstruct : merge_tables (t1 :: rest) =
      t1 ++ (rest.map
        (fun t => if is_header_row t.headI t1.headI then t.tail else t)).flatten := by
    show (t1 :: rest).foldl merge_step [] = _
    rw [List.foldl_cons, hstep1, merge_fold_structure rest t1 ht1]
  refine ⟨hstruct, ?_⟩
  rw [hstruct, List.length_append, List.length_flatten, List.map_map]
  congr 1
  apply congrArg List.sum
  apply List.map_congr_left
  intro t ht
  by_cases hh : is_header_row t.headI t1.headI = true
  · simp only [Function.comp_apply, hh, if_pos]
    exact List.length_tail t
  · simp only [Function.comp_apply]
    rw [if_neg hh, if_neg hh, Nat.sub_zero]

/-- Witness for C3 on two one-column tables sharing a header. -/
theorem merge_tables_structure_witness :
    ((∀ t ∈ ([[[some "h"], [some "1"]], [[some "h"], [some "2"]]] : List Table),
        2 ≤ t.length) ∧
      ∀ t ∈ ([[[some "h"], [some "1"]], [[some "h"], [some "2"]]] : List Table),
        ∀ r ∈ t, camelotRowKeep r = true) ∧
    merge_tables [[[some "h"], [some "1"]], [[some "h"], [some "2"]]] =
      [[some "h"], [some "1"], [some "2"]] ∧
    (merge_tables [[[some "h"], [some "1"]], [[some "h"], [some "2"]]]).length = 3 := by
  have h := merge_tables_structure [[some "h"], [some "1"]] [[[some "h"], [some "2"]]]
    (by decide) (by decide)
  exact ⟨⟨by decide, by decide⟩, h.1.trans (by decide), h.2.trans (by decide)⟩

/-- A row kept by the pdfplumber filter is kept by the camelot filter. -/
theorem plumber_keep_implies (r : Row) (h : plumberRowKeep r = true) :
    camelotRowKeep r = true := by
  unfold plumberRowKeep at h
  rw [Bool.and_eq_true] at h
  exact h.2

/-- Rows kept by the camelot filter survive clean_rows, one for one. -/
theorem clean_rows_length_of_keep (rs : List Row)
    (h : ∀ r ∈ rs, camelotRowKeep r = true) :
    (clean_rows rs).length = rs.length := by
  induction rs with
  | nil => rfl
  | cons row rest ih =>
    have hrow : (row.map clean_cell).any (fun c => !(c == "")) = true := by
      have hk := h row (by simp)
      unfold camelotRowKeep at hk
      rw [List.any_eq_true] at hk ⊢
      obtain ⟨c, hc, hcc⟩ := hk
      rcases c with _ | s
      · simp [cellTruthy] at hcc
      · refine ⟨clean_cell (some s), List.mem_map_of_mem _ hc, ?_⟩
        rw [Bool.and_eq_true] at hcc
        exact hcc.2
    show (if (row.map clean_cell).any (fun c => !(c == "")) then
        (row.map clean_cell) :: clean_rows rest else clean_rows rest).length = _
    rw [if_pos hrow]
    show (clean_rows rest).length + 1 = rest.length + 1
    rw [ih (fun r hr => h r (List.mem_cons_of_mem _ hr))]

/-- merge_step preserves a per-row invariant. -/
theorem merge_step_keep (acc t : List Row)
    (hacc : ∀ r ∈ acc, camelotRowKeep r = true)
    (ht : ∀ r ∈ t, camelotRowKeep r = true) :
    ∀ r ∈ merge_step acc t, camelotRowKeep r = true := by
  intro r hr
  unfold merge_step at hr
  split at hr
  · rcases List.mem_append.mp hr with h1 | h2
    exacts [hacc r h1, ht r h2]
  · split at hr
    · rcases List.mem_append.mp hr with h1 | h2
      exacts [hacc r h1, ht r (List.mem_of_mem_tail h2)]
    · rcases List.mem_append.mp hr with h1 | h2
      exacts [hacc r h1, ht r h2]

/-- The camelot table fold only accumulates filter-surviving rows. -/
theorem camelot_fold_keep (tables : List Table) (acc : List Row)
    (hacc : ∀ r ∈ acc, camelotRowKeep r = true) :
    ∀ r ∈ tables.foldl camelotTableStep acc, camelotRowKeep r = true := by
  induction tables generalizing acc with
  | nil => exact hacc
  | cons t ts ih =>
    rw [List.foldl_cons]
    apply ih
    intro r hr
    unfold camelotTableStep at hr
    by_cases hlen : (t.filter camelotRowKeep).length < 2
    · rw [if_pos hlen] at hr
      exact hacc r hr
    · rw [if_neg hlen] at hr
      exact merge_step_keep _ _ hacc
        (fun r2 hr2 => (List.mem_filter.mp hr2).2) r hr

/-- The pdfplumber table fold only accumulates filter-surviving rows. -/
theorem plumber_table_fold_keep (tables : List Table) (acc : List Row)
    (hacc : ∀ r ∈ acc, camelotRowKeep r = true) :
    ∀ r ∈ tables.foldl plumberTableStep acc, camelotRowKeep r = true := by
  induction tables generalizing acc with
  | nil => exact hacc
  | cons t ts ih =>
    rw [List.foldl_cons]
    apply ih
    intro r hr
    unfold plumberTableStep at hr
    by_cases hlen : (t.filter plumberRowKeep).length < 2
    · rw [if_pos hlen] at hr
      exact hacc r hr
    · rw [if_neg hlen] at hr
      exact merge_step_keep _ _ hacc
        (fun r2 hr2 => plumber_keep_implies r2 (List.mem_filter.mp hr2).2) r hr

/-- The pdfplumber page fold only accumulates filter-surviving rows. -/
theorem plumber_pages_fold_keep (pages : List (List Table)) (acc : List Row × Nat)
    (hacc : ∀ r ∈ acc.1, camelotRowKeep r = true) :
    ∀ r ∈ (pages.foldl plumberPageStep acc).1, camelotRowKeep r = true := by
  induction pages generalizing acc with
  | nil => exact hacc
  | cons ts rest ih =>
    rw [List.foldl_cons]
    apply ih
    unfold plumberPageStep
    by_cases hempty : ts.isEmpty = true
    · rw [if_pos hempty]
      exact hacc
    · rw [if_neg hempty]
      exact plumber_table_fold_keep ts acc.1 hacc

/-- C10: for both extractors, every merged row already passed the non-empty
cell filter, so cleaning drops nothing and the cleaned row count equals
total_rows. -/
theorem rows_length_eq_total_rows (pages : List (List Table))
    (lattice : Except String (List Table)) (stream : List Table) :
    (extract_with_pdfplumber pages).rows.length =
      (extract_with_pdfplumber pages).total_rows ∧
    (extract_with_camelot lattice stream).rows.length =
      (extract_with_camelot lattice stream).total_rows := by
  constructor
  · show (clean_rows (pages.foldl plumberPageStep ([], 0)).1).length =
      (pages.foldl plumberPageStep ([], 0)).1.length
    exact clean_rows_length_of_keep _
      (plumber_pages_fold_keep pages ([], 0)
        (fun r hr => absurd hr (List.not_mem_nil r)))
  · unfold extract_with_camelot camelotBody
    by_cases hemp : (camelotTables lattice stream).isEmpty = true
    · rw [if_pos hemp]
      rfl
    · rw [if_neg hemp]
      show (clean_rows
          ((camelotTables lattice stream).foldl camelotTableStep [])).length = _
      exact clean_rows_length_of_keep _
        (camelot_fold_keep _ []
          (fun r hr => absurd hr (List.not_mem_nil r)))

end PdfApp
